import Mathlib

/-!
Verification of the `newcast` track-management and motion-extrapolation engine
(package `newcast` of the GoFlow2 repository).

The Go source is shallowly embedded as follows:
* `time.Time` / `Duration.Seconds()` values and `float32`/`float64` coordinates
  are modelled as exact rationals (`ℚ`).  All the concrete computations the
  test-suite and spec exercise stay on small dyadic/integer values, where Go's
  floating point arithmetic is exact, so the rational model agrees with the
  binary64 computation there.  Where exactness fails the divergence is made
  explicit: `binary64Rounds` is a relational model of IEEE-754 round-to-nearest
  (an operation's binary64 result is certified either exact or strictly within
  half an ulp of the exact value, pinning the unique nearest representable),
  and `fitQuadratic_singular_float_cex` uses it to trace the float64
  determinant of `FitQuadratic` on a realistic duplicate-timestamp input to a
  nonzero value where the exact-ℚ determinant is zero.
* `math.Atan2` is transcendental and has no exact rational model; it is taken
  as an arbitrary parameter `f : ℚ → ℚ → ℚ` of the smoothness metric.  Every
  theorem about the filters is proved for all `f`, hence in particular for the
  real `atan2`.
* Go's `error` results of `FitQuadratic` become an `Except FitError _`;
  `FitError.insufficientPoints` stands for the message
  `not enough points to fit quadratic` and `FitError.singularSystem` for
  `failed to fit curve (singular matrix)` (two distinct error values).
* Go map iteration order (`for … range grid`) is unspecified; the embedding
  fixes the first-insertion order of the cell keys, one of the admissible
  behaviours.  Likewise the unstable `sort.Slice` is determinised as a stable
  insertion sort with the same comparison function.
-/

namespace Newcast

/-- `Point` from `tracker.go`: a capture time (seconds, rational model of
`time.Time`) and a 2-D position (rational model of `gocv.Point2f`). -/
structure Point where
  time : ℚ
  x : ℚ
  y : ℚ
deriving DecidableEq

instance : Inhabited Point := ⟨⟨0, 0, 0⟩⟩

/-- `Polynomial` from `curvefit.go`: coefficients of `a*t^2 + b*t + c`. -/
structure Polynomial where
  a : ℚ
  b : ℚ
  c : ℚ
deriving DecidableEq

instance : Inhabited Polynomial := ⟨⟨0, 0, 0⟩⟩

/-- `Polynomial.Eval`: evaluate `a*t*t + b*t + c`. -/
def Polynomial.Eval (p : Polynomial) (t : ℚ) : ℚ := p.a * t * t + p.b * t + p.c

/-- `Polynomial.Velocity`: first derivative `2*a*t + b`. -/
def Polynomial.Velocity (p : Polynomial) (t : ℚ) : ℚ := 2 * p.a * t + p.b

/-- `Polynomial.Acceleration`: second derivative `2*a`. -/
def Polynomial.Acceleration (p : Polynomial) : ℚ := 2 * p.a

/-- `Track` from `tracker.go`. -/
structure Track where
  id : ℕ
  points : List Point
  latestVelocity : ℚ × ℚ
  latestAcceleration : ℚ × ℚ
  lost : Bool
  polyX : Polynomial
  polyY : Polynomial
deriving DecidableEq

instance : Inhabited Track := ⟨⟨0, [], (0, 0), (0, 0), false, default, default⟩⟩

/-- Go's `points[i]` on a slice, used only under the source's bounds guards. -/
def getPt (l : List Point) (i : ℕ) : Point := l.getD i default

/-- The two error values produced by `FitQuadratic`:
`insufficientPoints` models `errors.New ...` with message
`not enough points to fit quadratic`, `singularSystem` the message
`failed to fit curve (singular matrix)`. -/
inductive FitError where
  | insufficientPoints
  | singularSystem
deriving DecidableEq

/-- A 3×3 matrix, modelling the `[][]float64` used in `curvefit.go`. -/
structure Mat3 where
  m00 : ℚ
  m01 : ℚ
  m02 : ℚ
  m10 : ℚ
  m11 : ℚ
  m12 : ℚ
  m20 : ℚ
  m21 : ℚ
  m22 : ℚ
deriving DecidableEq

/-- `determinant` from `curvefit.go` (cofactor expansion along the first row). -/
def determinant (m : Mat3) : ℚ :=
  m.m00 * (m.m11 * m.m22 - m.m12 * m.m21) -
    m.m01 * (m.m10 * m.m22 - m.m12 * m.m20) +
    m.m02 * (m.m10 * m.m21 - m.m11 * m.m20)

/-- A column vector of the right-hand sides (`bX` / `bY` in `curvefit.go`). -/
structure Vec3 where
  v0 : ℚ
  v1 : ℚ
  v2 : ℚ

/-- `copyMatrix` followed by overwriting column 0, as in Cramer's rule. -/
def replCol0 (m : Mat3) (b : Vec3) : Mat3 := { m with m00 := b.v0, m10 := b.v1, m20 := b.v2 }

/-- `copyMatrix` followed by overwriting column 1. -/
def replCol1 (m : Mat3) (b : Vec3) : Mat3 := { m with m01 := b.v0, m11 := b.v1, m21 := b.v2 }

/-- `copyMatrix` followed by overwriting column 2. -/
def replCol2 (m : Mat3) (b : Vec3) : Mat3 := { m with m02 := b.v0, m12 := b.v1, m22 := b.v2 }

/-- Power sum `Σ (t_i)^k` of the elapsed times `t_i = p.time - t0`
accumulated by the loop in `FitQuadratic` (`sumT`, `sumT2`, …). -/
def S (t0 : ℚ) (pts : List Point) (k : ℕ) : ℚ := (pts.map (fun p => (p.time - t0) ^ k)).sum

/-- Cross sum `Σ (t_i)^k * x_i` (`sumX`, `sumTX`, `sumT2X`). -/
def SX (t0 : ℚ) (pts : List Point) (k : ℕ) : ℚ :=
  (pts.map (fun p => (p.time - t0) ^ k * p.x)).sum

/-- Cross sum `Σ (t_i)^k * y_i` (`sumY`, `sumTY`, `sumT2Y`). -/
def SY (t0 : ℚ) (pts : List Point) (k : ℕ) : ℚ :=
  (pts.map (fun p => (p.time - t0) ^ k * p.y)).sum

/-- The coefficient matrix `A` of the 3×3 normal-equations system built in
`FitQuadratic`:
rows `(n, Σt, Σt²)`, `(Σt, Σt², Σt³)`, `(Σt², Σt³, Σt⁴)`. -/
def coeffMatrix (pts : List Point) : Mat3 :=
  let t0 := (getPt pts 0).time
  ⟨(pts.length : ℚ), S t0 pts 1, S t0 pts 2,
   S t0 pts 1, S t0 pts 2, S t0 pts 3,
   S t0 pts 2, S t0 pts 3, S t0 pts 4⟩

/-- The right-hand side `bX = (Σx, Σt·x, Σt²·x)` of the normal equations. -/
def bXvec (pts : List Point) : Vec3 :=
  ⟨SX (getPt pts 0).time pts 0, SX (getPt pts 0).time pts 1, SX (getPt pts 0).time pts 2⟩

/-- The right-hand side `bY = (Σy, Σt·y, Σt²·y)` of the normal equations. -/
def bYvec (pts : List Point) : Vec3 :=
  ⟨SY (getPt pts 0).time pts 0, SY (getPt pts 0).time pts 1, SY (getPt pts 0).time pts 2⟩

/-- The polynomial solved from the system `A·(c,b,a) = b` by Cramer's rule:
column 0 gives `c`, column 1 gives `b`, column 2 gives `a`, exactly as the
source assigns them. -/
def cramerSolve (A : Mat3) (b : Vec3) : Polynomial :=
  ⟨determinant (replCol2 A b) / determinant A,
   determinant (replCol1 A b) / determinant A,
   determinant (replCol0 A b) / determinant A⟩

/-- `FitQuadratic` from `curvefit.go`: least-squares degree-2 fit of the X and
Y coordinates against elapsed time, solved by Cramer's rule.  Fails with
`insufficientPoints` below 3 points, and with `singularSystem` when the
determinant of the coefficient matrix is exactly zero.

Fidelity caveat: the Go code's `detA == 0` compares the *binary64* value of
the determinant against zero.  This exact-ℚ singularity test agrees with it
whenever the whole determinant computation is float-exact — in particular on
the small-integer sample times of the test suite and the scenario, and when
all sample times coincide (every accumulated sum is then `= 0` or a sum of
equal small terms, exactly representable).  On general inputs with fewer
than 3 distinct times the two can disagree: `fitQuadratic_singular_float_cex`
traces binary64 on elapsed times `{0, 0.1s, 0.1s}` to `detA ≈ 1.4569e-21 ≠ 0`
(Go then silently divides) while this model reports `singularSystem`. -/
def FitQuadratic (points : List Point) : Except FitError (Polynomial × Polynomial) :=
  if points.length < 3 then .error .insufficientPoints
  else if determinant (coeffMatrix points) = 0 then .error .singularSystem
  else .ok (cramerSolve (coeffMatrix points) (bXvec points),
            cramerSolve (coeffMatrix points) (bYvec points))

/-- The four samples of `x(t)=t², y(t)=t²` at `t = 0,1,2,3` used by the spec's
exact-recovery property and by the end-to-end scenario. -/
def pts4 : List Point := [⟨0, 0, 0⟩, ⟨1, 1, 1⟩, ⟨2, 4, 4⟩, ⟨3, 9, 9⟩]

theorem fit_pts4 : FitQuadratic pts4 = .ok (⟨1, 0, 0⟩, ⟨1, 0, 0⟩) := by
  norm_num [FitQuadratic, coeffMatrix, cramerSolve, bXvec, bYvec, S, SX, SY, determinant,
    replCol0, replCol1, replCol2, getPt, pts4]

/-- `estimateMotion` from `tracker.go`: prefer a quadratic fit once at least 4
points exist, otherwise fall back to finite differences.  The Go method
mutates its `*Track` argument; the embedding returns the updated value.
(The `float32` round-trips of the Go source are dropped: positions are exact
rationals here.) -/
def estimateMotion (tr : Track) : Track :=
  let n := tr.points.length
  if n < 2 then tr
  else
    let fitted : Option Track :=
      if 4 ≤ n then
        match FitQuadratic tr.points with
        | .ok (px, py) =>
          let t0 := (getPt tr.points 0).time
          let lastT := (getPt tr.points (n - 1)).time - t0
          some { tr with
            polyX := px, polyY := py,
            latestVelocity := (px.Velocity lastT, py.Velocity lastT),
            latestAcceleration := (px.Acceleration, py.Acceleration) }
        | .error _ => none
      else none
    match fitted with
    | some tr' => tr'
    | none =>
      let p1 := getPt tr.points (n - 1)
      let p0 := getPt tr.points (n - 2)
      let dt := p1.time - p0.time
      let tr1 := if 0 < dt then
          { tr with latestVelocity := ((p1.x - p0.x) / dt, (p1.y - p0.y) / dt) }
        else tr
      if n < 3 then tr1
      else
        let pm1 := getPt tr.points (n - 3)
        let dtPrev := p0.time - pm1.time
        if 0 < dtPrev then
          let vxPrev := (p0.x - pm1.x) / dtPrev
          let vyPrev := (p0.y - pm1.y) / dtPrev
          let avgDt := (dt + dtPrev) / 2
          if 0 < avgDt then
            { tr1 with latestAcceleration :=
                ((tr1.latestVelocity.1 - vxPrev) / avgDt,
                 (tr1.latestVelocity.2 - vyPrev) / avgDt) }
          else tr1
        else tr1

/-- One entry of the per-frame correspondence data consumed by `updateTracks`:
the next position (`nextPoints` row `i`) and the tracked flag
(`status` row `i`, `1` = still tracked). -/
structure Correspondence where
  pos : ℚ × ℚ
  tracked : Bool
deriving DecidableEq

/-- `updateTracks` from `tracker.go`.  The Go loop walks `t.tracks` and the
`status`/`nextPoints` matrices in the same index order, which the zip models.
An untracked Track is marked `Lost` and dropped from `survivingTracks`; since
the field is then invisible to the store (the Track is removed from
`t.tracks`), the embedding simply omits it. -/
def updateTracks (tracks : List Track) (corrs : List Correspondence) (ts : ℚ) : List Track :=
  (tracks.zip corrs).filterMap fun tc =>
    if tc.1.lost then none
    else if tc.2.tracked then
      some (estimateMotion
        { tc.1 with points := tc.1.points ++ [⟨ts, tc.2.pos.1, tc.2.pos.2⟩] })
    else none

/-- `Tracker` from `tracker.go` (the Track Store).  The `gocv.Mat` fields
(`prevImg`, `prevPoints`) are provider-side state outside this core. -/
structure Tracker where
  maxFeatures : ℤ
  nextTrackID : ℕ
  tracks : List Track
deriving DecidableEq

/-- The error of `initializeTracks`: `no features found in the first image`. -/
inductive InitError where
  | noFeatures
deriving DecidableEq

/-- `NewTracker`'s freshly constructed store: `nextTrackID = 0`, no tracks. -/
def mkTracker (m : ℤ) : Tracker := ⟨m, 0, []⟩

/-- `NewTracker` from `tracker.go`: fails unless `maxFeatures` is positive. -/
def NewTracker (maxFeatures : ℤ) : Option Tracker :=
  if maxFeatures ≤ 0 then none else some (mkTracker maxFeatures)

/-- The seeding loop of `initializeTracks`: one single-point Track per
feature, consecutive ids starting at `nid` (`t.nextTrackID++` per iteration),
all other fields zero-valued. -/
def seedTracks (nid : ℕ) (ts : ℚ) : List (ℚ × ℚ) → List Track
  | [] => []
  | f :: fs =>
    { id := nid,
      points := [⟨ts, f.1, f.2⟩],
      latestVelocity := (0, 0),
      latestAcceleration := (0, 0),
      lost := false,
      polyX := ⟨0, 0, 0⟩,
      polyY := ⟨0, 0, 0⟩ } :: seedTracks (nid + 1) ts fs

/-- `initializeTracks` from `tracker.go`: fails on an empty feature set,
otherwise appends the seeded tracks and advances `nextTrackID`. -/
def initializeTracks (tk : Tracker) (features : List (ℚ × ℚ)) (ts : ℚ) :
    Except InitError Tracker :=
  if features.length = 0 then .error .noFeatures
  else .ok { tk with
    tracks := tk.tracks ++ seedTracks tk.nextTrackID ts features,
    nextTrackID := tk.nextTrackID + features.length }

/-- The `updateTracks` step of `AddImage`, at the store level. -/
def ingest (tk : Tracker) (corrs : List Correspondence) (ts : ℚ) : Tracker :=
  { tk with tracks := updateTracks tk.tracks corrs ts }

/-- `GetTracks` from `tracker.go`: the active (non-lost) tracks. -/
def GetTracks (tk : Tracker) : List Track :=
  tk.tracks.filter fun tr => !tr.lost

/-- A store-level operation: `Initialize` (first frame) or `Ingest`
(a frame transition with its per-track correspondences). -/
inductive Op where
  | init (features : List (ℚ × ℚ)) (ts : ℚ)
  | ingest (corrs : List Correspondence) (ts : ℚ)
deriving DecidableEq

/-- The timestamp an operation carries. -/
def Op.time : Op → ℚ
  | .init _ ts => ts
  | .ingest _ ts => ts

/-- Apply one operation to the store.  A failing `initializeTracks`
(empty feature set) returns before mutating, so the store is unchanged. -/
def applyOp (tk : Tracker) : Op → Tracker
  | .init fs ts =>
    match initializeTracks tk fs ts with
    | .ok tk' => tk'
    | .error _ => tk
  | .ingest cs ts => ingest tk cs ts

/-- Run a sequence of operations from a given store state. -/
def runOps (tk : Tracker) (ops : List Op) : Tracker := ops.foldl applyOp tk

/-- The track ids assigned by one operation: the ids of the tracks a
successful `init` creates; `ingest` creates none. -/
def opAssigned (tk : Tracker) : Op → List ℕ
  | .init fs ts => if fs.length = 0 then [] else (seedTracks tk.nextTrackID ts fs).map Track.id
  | .ingest _ _ => []

/-- All track ids assigned over a run, in order of assignment. -/
def runAssigned (tk : Tracker) : List Op → List ℕ
  | [] => []
  | op :: ops => opAssigned tk op ++ runAssigned (applyOp tk op) ops

/-- The extrapolation performed per track by `VisualizeExtrapolatedTracks`
(`visualize.go`): guarded by the drawing loop's `len(track.Points) < 2` skip
and by `numFuturePoints > 0 && track.PolyX.A != 0` (the zero-`a` sentinel for
"no quadratic fitted"); evaluates both polynomials at
`lastT + j*avgDt`, `j = 1..numFuturePoints`. -/
def Extrapolate (tr : Track) (numFuturePoints : ℤ) : List (ℚ × ℚ) :=
  if tr.points.length < 2 then []
  else if 0 < numFuturePoints ∧ tr.polyX.a ≠ 0 then
    let t0 := (getPt tr.points 0).time
    let lastPoint := getPt tr.points (tr.points.length - 1)
    let lastT := lastPoint.time - t0
    let avgDt : ℚ :=
      if 1 < tr.points.length then
        lastT / ((tr.points.length - 1 : ℕ) : ℚ)
      else 1
    (List.range numFuturePoints.toNat).map fun j =>
      let futureT := lastT + ((j : ℚ) + 1) * avgDt
      (tr.polyX.Eval futureT, tr.polyY.Eval futureT)
  else []

/-- The operation sequence of the spec's end-to-end scenario: seed one Track
at `(0,0)` at `t=0`, then ingest tracked points `(1,1)@1s`, `(4,4)@2s`,
`(9,9)@3s`. -/
def scenarioOps : List Op :=
  [.init [(0, 0)] 0,
   .ingest [⟨(1, 1), true⟩] 1,
   .ingest [⟨(4, 4), true⟩] 2,
   .ingest [⟨(9, 9), true⟩] 3]

/-- The Track state the scenario produces. -/
def scenarioTrack : Track := ⟨0, pts4, (6, 6), (2, 2), false, ⟨1, 0, 0⟩, ⟨1, 0, 0⟩⟩

lemma run_scenario : runOps (mkTracker 1) scenarioOps = ⟨1, 1, [scenarioTrack]⟩ := by
  norm_num [scenarioOps, runOps, applyOp, ingest, initializeTracks, seedTracks, updateTracks,
    estimateMotion, getPt, mkTracker, scenarioTrack, pts4, FitQuadratic, coeffMatrix,
    cramerSolve, bXvec, bYvec, S, SX, SY, determinant, replCol0, replCol1, replCol2,
    Polynomial.Velocity, Polynomial.Acceleration,
    List.zip_cons_cons, List.zip_nil_left, List.zip_nil_right,
    List.filterMap_cons, List.getD_cons_zero, List.getD_cons_succ, List.getD]

/-- C1: seeding one Track at `(0,0)` at `t=0` and ingesting tracked points
`(1,1)@1s`, `(4,4)@2s`, `(9,9)@3s` leaves the Track with fitted quadratic
coefficient `a` within `0.01` of `1` on both axes, and extrapolating one
future point (at `t_last + avg_dt`) yields a point within `0.01` of
`(16,16)` — in fact both are exact. -/
theorem endToEnd_scenario :
    ∃ tr, (runOps (mkTracker 1) scenarioOps).tracks = [tr] ∧
      |tr.polyX.a - 1| ≤ 1 / 100 ∧ |tr.polyY.a - 1| ≤ 1 / 100 ∧
      ∃ p, Extrapolate tr 1 = [p] ∧ |p.1 - 16| ≤ 1 / 100 ∧ |p.2 - 16| ≤ 1 / 100 := by
  refine ⟨scenarioTrack, by rw [run_scenario], ?_, ?_, (16, 16), ?_, ?_, ?_⟩
  · norm_num [scenarioTrack]
  · norm_num [scenarioTrack]
  · norm_num [Extrapolate, getPt, scenarioTrack, pts4, Polynomial.Eval,
      List.range_succ, List.flatMap_cons, List.flatMap_nil]
  · norm_num
  · norm_num

/-- C4: exact quadratic recovery on `x(t)=t², y(t)=t²` sampled at
`t = 0,1,2,3`, with the tolerances of the spec (all values are exact in this
rational model, and the binary64 computation is exact on these inputs too). -/
theorem fitQuadratic_exact_recovery :
    ∃ px py, FitQuadratic pts4 = .ok (px, py) ∧
      |px.a - 1| ≤ 1 / 100 ∧ |px.b| ≤ 1 / 100 ∧ |px.c| ≤ 1 / 100 ∧
      |py.a - 1| ≤ 1 / 100 ∧ |py.b| ≤ 1 / 100 ∧ |py.c| ≤ 1 / 100 ∧
      |px.Eval 4 - 16| ≤ 1 / 100 ∧ |py.Eval 4 - 16| ≤ 1 / 100 ∧
      |px.Velocity 2 - 4| ≤ 1 / 100 ∧ |py.Velocity 2 - 4| ≤ 1 / 100 ∧
      |px.Acceleration - 2| ≤ 1 / 100 ∧ |py.Acceleration - 2| ≤ 1 / 100 :=
  ⟨⟨1, 0, 0⟩, ⟨1, 0, 0⟩, fit_pts4,
    by norm_num [Polynomial.Eval, Polynomial.Velocity, Polynomial.Acceleration]⟩

lemma S_zero (t0 : ℚ) (pts : List Point) : S t0 pts 0 = pts.length := by
  induction pts with
  | nil => simp [S]
  | cons a l ih =>
    simp only [S, List.map_cons, List.sum_cons, List.length_cons] at *
    rw [pow_zero, ih]; push_cast; ring

/-- If every elapsed time satisfies the monic quadratic `t² = p·t - q`, the
power sums satisfy the corresponding three-term recurrence. -/
lemma S_rec (t0 p q : ℚ) (k : ℕ) :
    ∀ pts : List Point,
      (∀ pt ∈ pts, (pt.time - t0) * (pt.time - t0) = p * (pt.time - t0) - q) →
      S t0 pts (k + 2) = p * S t0 pts (k + 1) - q * S t0 pts k
  | [], _ => by simp [S]
  | a :: l, h => by
    have ha := h a (List.mem_cons_self a l)
    have hrec : (a.time - t0) ^ (k + 2) =
        p * (a.time - t0) ^ (k + 1) - q * (a.time - t0) ^ k := by
      have hsplit : (a.time - t0) ^ (k + 2) =
          ((a.time - t0) * (a.time - t0)) * (a.time - t0) ^ k := by ring
      rw [hsplit, ha]; ring
    have ih := S_rec t0 p q k l (fun pt hpt => h pt (List.mem_cons_of_mem a hpt))
    simp only [S, List.map_cons, List.sum_cons] at *
    rw [hrec, ih]; ring

/-- A Hankel-style 3×3 matrix whose third column is a linear combination of
the first two has determinant zero. -/
lemma det_dependent_cols (S0 S1 S2 S3 S4 p q : ℚ) (h2 : S2 = p * S1 - q * S0)
    (h3 : S3 = p * S2 - q * S1) (h4 : S4 = p * S3 - q * S2) :
    determinant ⟨S0, S1, S2, S1, S2, S3, S2, S3, S4⟩ = 0 := by
  subst h4; subst h3; subst h2; simp only [determinant]; ring

lemma coeffMatrix_singular (pts : List Point) (u v : ℚ)
    (hall : ∀ p ∈ pts, p.time = u ∨ p.time = v) :
    determinant (coeffMatrix pts) = 0 := by
  set t0 := (getPt pts 0).time with ht0
  have hq : ∀ pt ∈ pts, (pt.time - t0) * (pt.time - t0) =
      ((u - t0) + (v - t0)) * (pt.time - t0) - ((u - t0) * (v - t0)) := by
    intro pt hpt
    rcases hall pt hpt with h | h <;> rw [h] <;> ring
  have h2 := S_rec t0 ((u - t0) + (v - t0)) ((u - t0) * (v - t0)) 0 pts hq
  have h3 := S_rec t0 ((u - t0) + (v - t0)) ((u - t0) * (v - t0)) 1 pts hq
  have h4 := S_rec t0 ((u - t0) + (v - t0)) ((u - t0) * (v - t0)) 2 pts hq
  have hN : (pts.length : ℚ) = S t0 pts 0 := (S_zero t0 pts).symm
  simp only [coeffMatrix, ← ht0, hN]
  exact det_dependent_cols _ _ _ _ _ _ _ (by rw [h2]) (by rw [h3]) (by rw [h4])

/-- C3 (amended): `FitQuadratic` fails with the insufficient-points error
exactly when fewer than 3 points are supplied; and when *all* sample times
coincide, the coefficient-matrix determinant is exactly zero and the
singular-system error is returned.  The all-times-coincide case is exact in
binary64 as well: every elapsed duration is the zero `time.Duration`, so
`Seconds()` is exactly `0.0`, every accumulated power sum is exactly `0.0`,
and the cofactor expansion over a matrix of zeros (plus `N`) incurs no
rounding, so Go's `detA == 0` test also fires.  The general
fewer-than-3-distinct-times case of the original claim is *false* of the
program (see `fitQuadratic_singular_float_cex`): with elapsed times
`{0, 0.1s, 0.1s}` the binary64 determinant is a tiny nonzero value and the
code silently divides. -/
theorem fitQuadratic_error_conditions :
    (∀ pts, FitQuadratic pts = .error .insufficientPoints ↔ pts.length < 3) ∧
    (∀ pts u, 3 ≤ pts.length → (∀ p ∈ pts, p.time = u) →
      determinant (coeffMatrix pts) = 0 ∧ FitQuadratic pts = .error .singularSystem) := by
  constructor
  · intro pts
    constructor
    · intro h
      by_contra hlen
      rw [FitQuadratic, if_neg hlen] at h
      split at h <;> simp_all
    · intro h
      rw [FitQuadratic, if_pos h]
  · intro pts u hlen hall
    have hdet := coeffMatrix_singular pts u u (fun p hp => Or.inl (hall p hp))
    refine ⟨hdet, ?_⟩
    rw [FitQuadratic, if_neg (by omega), if_pos hdet]

/-- Witness for C3: three points sharing the time `0` hit the singular
branch. -/
def pts3same : List Point := [⟨0, 0, 0⟩, ⟨0, 1, 1⟩, ⟨0, 2, 2⟩]

theorem fitQuadratic_error_conditions_witness :
    determinant (coeffMatrix pts3same) = 0 ∧
      FitQuadratic pts3same = .error .singularSystem :=
  fitQuadratic_error_conditions.2 pts3same 0 (by norm_num [pts3same])
    (by intro p hp; simp only [pts3same, List.mem_cons, List.not_mem_nil, or_false] at hp
        rcases hp with rfl | rfl | rfl <;> rfl)

/-- Modelled from the IEEE-754 binary64 semantics Go's spec prescribes for
`float64` (round to nearest, ties to even; Go gc on amd64 performs no
operation fusing in these expressions): `x` is the rounding of the exact
real value `q`.  Certified either by exactness (`q = x` and `x` on the
representable grid — rounding a representable value returns it), or by a
strictly-nearer-than-half-ulp witness: `x` lies on the grid of `q`'s binade
`[2^E, 2^(E+1))` and is strictly within half an ulp (`2^(E-53)`) of `q`, so
`x` is the unique nearest representable (see
`binary64Rounds_strict_nearest`; representables below the binade are at
least `(q - 2^E) + 2^(E-53) > |x - q|` away) and the tie rule is
irrelevant. -/
def binary64Rounds (q x : ℚ) : Prop :=
  (q = x ∧ ∃ m E : ℤ, |m| ≤ 2 ^ 53 ∧ x = m * (2 : ℚ) ^ E) ∨
  (∃ E : ℤ, (2 : ℚ) ^ E ≤ |q| ∧ |q| < (2 : ℚ) ^ (E + 1) ∧
    (∃ m : ℤ, |m| ≤ 2 ^ 53 ∧ x = m * (2 : ℚ) ^ (E - 52)) ∧
    |x - q| < (2 : ℚ) ^ (E - 53))

lemma binary64Rounds_of (q x : ℚ) (E m : ℤ) (h1 : (2 : ℚ) ^ E ≤ |q|)
    (h2 : |q| < (2 : ℚ) ^ (E + 1)) (hm : |m| ≤ 2 ^ 53)
    (hx : x = m * (2 : ℚ) ^ (E - 52)) (h3 : |x - q| < (2 : ℚ) ^ (E - 53)) :
    binary64Rounds q x :=
  Or.inr ⟨E, h1, h2, ⟨m, hm, hx⟩, h3⟩

lemma binary64Rounds_exact (q x : ℚ) (m E : ℤ) (hqx : q = x) (hm : |m| ≤ 2 ^ 53)
    (hx : x = m * (2 : ℚ) ^ E) : binary64Rounds q x :=
  Or.inl ⟨hqx, m, E, hm, hx⟩

/-- The strict half-ulp certificate really pins down the nearest grid point:
any other multiple of the binade's ulp is strictly farther from `q`. -/
lemma binary64Rounds_strict_nearest {q x : ℚ} {E : ℤ} (m : ℤ)
    (hx : x = m * (2 : ℚ) ^ (E - 52)) (hq : |x - q| < (2 : ℚ) ^ (E - 53))
    (n : ℤ) (y : ℚ) (hy : y = n * (2 : ℚ) ^ (E - 52)) (hne : y ≠ x) :
    |x - q| < |y - q| := by
  have hpow : (0 : ℚ) < (2 : ℚ) ^ (E - 52) := by positivity
  have hnm : n ≠ m := by
    intro h
    exact hne (by rw [hy, h, ← hx])
  have hdiff : (2 : ℚ) ^ (E - 52) ≤ |y - x| := by
    rw [hy, hx, ← sub_mul, abs_mul, abs_of_pos hpow]
    have h1 : (1 : ℚ) ≤ |(n : ℚ) - (m : ℚ)| := by
      rw [← Int.cast_sub, ← Int.cast_abs]
      exact_mod_cast Int.one_le_abs (sub_ne_zero.2 hnm)
    exact le_mul_of_one_le_left hpow.le h1
  have htri : |y - x| ≤ |y - q| + |x - q| := by
    have := abs_add (y - q) (q - x)
    rw [show y - q + (q - x) = y - x from by ring] at this
    rw [show |q - x| = |x - q| from abs_sub_comm q x] at this
    exact this
  have h2 : (2 : ℚ) ^ (E - 52) = (2 : ℚ) ^ (E - 53) * 2 := by
    rw [show E - 52 = (E - 53) + 1 from by ring,
      zpow_add_one₀ (by norm_num : (2 : ℚ) ≠ 0)]
  linarith

/-- `RN(0.1)`: the binary64 value of 0.1 seconds, as computed by
`time.Duration(100ms).Seconds() = float64(1e8)/float64(1e9)` (both operands
exact, quotient exactly `1/10`, then rounded). -/
def tF : ℚ := 3602879701896397 / 36028797018963968

/-- `t2 = fl(tF * tF)` of the power loop. -/
def t2F : ℚ := 1441151880758559 / 144115188075855872

/-- `t3 = fl(t2F * tF)`. -/
def t3F : ℚ := 4611686018427389 / 4611686018427387904

/-- `t4 = fl(t3F * tF)`. -/
def t4F : ℚ := 7378697629483823 / 73786976294838206464

/-- `fl(sumT2 * sumT4)` in the cofactor expansion. -/
def r1F : ℚ := 295147905179353 / 73786976294838206464

/-- `fl(sumT3 * sumT3)`. -/
def r2F : ℚ := 4722366482869647 / 1180591620717411303424

/-- `fl(r1F - r2F)` (exact). -/
def s1F : ℚ := 1 / 1180591620717411303424

/-- `fl(N * s1F)` with `N = 3` (exact). -/
def term1F : ℚ := 3 / 1180591620717411303424

/-- `fl(sumT * sumT4)`; also the value of `fl(sumT3 * sumT2)` — the two
agree bit for bit, which is why the second cofactor vanishes. -/
def r3F : ℚ := 5902958103587059 / 147573952589676412928

/-- `fl(sumT * sumT3)`. -/
def r5F : ℚ := 7378697629483823 / 18446744073709551616

/-- `fl(sumT2 * sumT2)`. -/
def r6F : ℚ := 461168601842739 / 1152921504606846976

/-- `fl(r5F - r6F)` (exact). -/
def s3F : ℚ := -1 / 18446744073709551616

/-- `fl(sumT2 * s3F)` (exact). -/
def term3F : ℚ := -1441151880758559 / 1329227995784915872903807060280344576

/-- The binary64 determinant `fl(fl(term1 - term2) + term3)` (exact final
additions): about `1.4569e-21`, *not* zero. -/
def detAF : ℚ := 1936547839769313 / 1329227995784915872903807060280344576

/-- The duplicate-timestamp input of the counterexample: capture times
`t0, t0 + 100ms, t0 + 100ms`, whose Go elapsed-seconds values are exactly
`0, tF, tF` — three points, only two distinct time values. -/
def ptsF : List Point := [⟨0, 0, 0⟩, ⟨tF, 1, 1⟩, ⟨tF, 2, 2⟩]

/-- Counterexample to C3 as stated: on the realistic duplicate-timestamp
input `ptsF` (elapsed times `{0, 0.1s, 0.1s}`, fewer than 3 distinct
values), the binary64 computation the Go code actually performs — traced
operation by operation through the power loop, the sums (`0 + x` steps,
which are exact, are omitted; the nonzero-sum doublings are listed) and the
cofactor expansion of `determinant` — yields `detA = detAF ≈ 1.4569e-21`,
which is *not* exactly zero, so `detA == 0` is false and the code silently
divides instead of failing with the singular-system error.  The
exact-arithmetic model (last conjunct) calls exactly this input singular,
which is why the ℚ-embedded `FitQuadratic` cannot carry the original
universal claim. -/
theorem fitQuadratic_singular_float_cex :
    binary64Rounds (1 / 10) tF ∧
    binary64Rounds (tF * tF) t2F ∧
    binary64Rounds (t2F * tF) t3F ∧
    binary64Rounds (t3F * tF) t4F ∧
    binary64Rounds (tF + tF) (2 * tF) ∧
    binary64Rounds (t2F + t2F) (2 * t2F) ∧
    binary64Rounds (t3F + t3F) (2 * t3F) ∧
    binary64Rounds (t4F + t4F) (2 * t4F) ∧
    binary64Rounds ((2 * t2F) * (2 * t4F)) r1F ∧
    binary64Rounds ((2 * t3F) * (2 * t3F)) r2F ∧
    binary64Rounds (r1F - r2F) s1F ∧
    binary64Rounds (3 * s1F) term1F ∧
    binary64Rounds ((2 * tF) * (2 * t4F)) r3F ∧
    binary64Rounds ((2 * t3F) * (2 * t2F)) r3F ∧
    binary64Rounds (r3F - r3F) 0 ∧
    binary64Rounds ((2 * tF) * 0) 0 ∧
    binary64Rounds ((2 * tF) * (2 * t3F)) r5F ∧
    binary64Rounds ((2 * t2F) * (2 * t2F)) r6F ∧
    binary64Rounds (r5F - r6F) s3F ∧
    binary64Rounds ((2 * t2F) * s3F) term3F ∧
    binary64Rounds (term1F - 0) term1F ∧
    binary64Rounds (term1F + term3F) detAF ∧
    detAF ≠ 0 ∧
    FitQuadratic ptsF = .error .singularSystem := by
  refine ⟨?_, ?_, ?_, ?_, ?_, ?_, ?_, ?_, ?_, ?_, ?_, ?_, ?_, ?_, ?_, ?_, ?_, ?_, ?_,
    ?_, ?_, ?_, ?_, ?_⟩
  · exact binary64Rounds_of _ _ (-4) 7205759403792794 (by norm_num [abs_of_nonneg])
      (by norm_num [abs_of_nonneg]) (by norm_num) (by norm_num [tF])
      (by norm_num [tF, abs_of_nonneg])
  · exact binary64Rounds_of _ _ (-7) 5764607523034236 (by norm_num [tF, abs_of_nonneg])
      (by norm_num [tF, abs_of_nonneg]) (by norm_num) (by norm_num [t2F])
      (by norm_num [tF, t2F, abs_of_nonneg])
  · exact binary64Rounds_of _ _ (-10) 4611686018427389
      (by norm_num [tF, t2F, abs_of_nonneg]) (by norm_num [tF, t2F, abs_of_nonneg])
      (by norm_num) (by norm_num [t3F]) (by norm_num [tF, t2F, t3F, abs_of_nonneg])
  · exact binary64Rounds_of _ _ (-14) 7378697629483823
      (by norm_num [tF, t3F, abs_of_nonneg]) (by norm_num [tF, t3F, abs_of_nonneg])
      (by norm_num) (by norm_num [t4F]) (by norm_num [tF, t3F, t4F, abs_of_nonneg])
  · exact binary64Rounds_exact _ _ 3602879701896397 (-54) (by ring) (by norm_num)
      (by norm_num [tF])
  · exact binary64Rounds_exact _ _ 1441151880758559 (-56) (by ring) (by norm_num)
      (by norm_num [t2F])
  · exact binary64Rounds_exact _ _ 4611686018427389 (-61) (by ring) (by norm_num)
      (by norm_num [t3F])
  · exact binary64Rounds_exact _ _ 7378697629483823 (-65) (by ring) (by norm_num)
      (by norm_num [t4F])
  · exact binary64Rounds_of _ _ (-18) 4722366482869648
      (by norm_num [t2F, t4F, abs_of_nonneg]) (by norm_num [t2F, t4F, abs_of_nonneg])
      (by norm_num) (by norm_num [r1F]) (by norm_num [t2F, t4F, r1F, abs_of_nonneg])
  · exact binary64Rounds_of _ _ (-18) 4722366482869647
      (by norm_num [t3F, abs_of_nonneg]) (by norm_num [t3F, abs_of_nonneg])
      (by norm_num) (by norm_num [r2F]) (by norm_num [t3F, r2F, abs_of_nonneg])
  · exact binary64Rounds_exact _ _ 1 (-70) (by norm_num [r1F, r2F, s1F]) (by norm_num)
      (by norm_num [s1F])
  · exact binary64Rounds_exact _ _ 3 (-70) (by norm_num [s1F, term1F]) (by norm_num)
      (by norm_num [term1F])
  · exact binary64Rounds_of _ _ (-15) 5902958103587059
      (by norm_num [tF, t4F, abs_of_nonneg]) (by norm_num [tF, t4F, abs_of_nonneg])
      (by norm_num) (by norm_num [r3F]) (by norm_num [tF, t4F, r3F, abs_of_nonneg])
  · exact binary64Rounds_of _ _ (-15) 5902958103587059
      (by norm_num [t2F, t3F, abs_of_nonneg]) (by norm_num [t2F, t3F, abs_of_nonneg])
      (by norm_num) (by norm_num [r3F]) (by norm_num [t2F, t3F, r3F, abs_of_nonneg])
  · exact binary64Rounds_exact _ _ 0 0 (by ring) (by norm_num) (by norm_num)
  · exact binary64Rounds_exact _ _ 0 0 (by ring) (by norm_num) (by norm_num)
  · exact binary64Rounds_of _ _ (-12) 7378697629483823
      (by norm_num [tF, t3F, abs_of_nonneg]) (by norm_num [tF, t3F, abs_of_nonneg])
      (by norm_num) (by norm_num [r5F]) (by norm_num [tF, t3F, r5F, abs_of_nonneg])
  · exact binary64Rounds_of _ _ (-12) 7378697629483824
      (by norm_num [t2F, abs_of_nonneg]) (by norm_num [t2F, abs_of_nonneg])
      (by norm_num) (by norm_num [r6F]) (by norm_num [t2F, r6F, abs_of_nonneg])
  · exact binary64Rounds_exact _ _ (-1) (-64) (by norm_num [r5F, r6F, s3F]) (by norm_num)
      (by norm_num [s3F])
  · exact binary64Rounds_exact _ _ (-1441151880758559) (-120)
      (by norm_num [t2F, s3F, term3F]) (by norm_num [abs_of_nonpos])
      (by norm_num [term3F])
  · exact binary64Rounds_exact _ _ 3 (-70) (by norm_num [term1F]) (by norm_num)
      (by norm_num [term1F])
  · exact binary64Rounds_exact _ _ 1936547839769313 (-120)
      (by norm_num [term1F, term3F, detAF]) (by norm_num) (by norm_num [detAF])
  · norm_num [detAF]
  · have hdet := coeffMatrix_singular ptsF 0 tF (by
      intro p hp
      simp only [ptsF, List.mem_cons, List.not_mem_nil, or_false] at hp
      rcases hp with rfl | rfl | rfl
      · exact Or.inl rfl
      · exact Or.inr rfl
      · exact Or.inr rfl)
    rw [FitQuadratic, if_neg (by norm_num [ptsF]), if_pos hdet]

/-- Four samples of the pure linear motion `x(t)=t, y(t)=t` at `t=0,1,2,3`:
the quadratic fit succeeds with quadratic coefficient exactly `0`. -/
def linPts : List Point := [⟨0, 0, 0⟩, ⟨1, 1, 1⟩, ⟨2, 2, 2⟩, ⟨3, 3, 3⟩]

/-- A live Track holding the linear samples, not yet fitted. -/
def linTrack : Track := ⟨0, linPts, (0, 0), (0, 0), false, ⟨0, 0, 0⟩, ⟨0, 0, 0⟩⟩

/-- A Track whose stored x-polynomial is `0·t² + 1·t + 0`. -/
def sentinelTrack : Track :=
  ⟨0, [⟨0, 0, 0⟩, ⟨1, 1, 1⟩], (0, 0), (0, 0), false, ⟨0, 1, 0⟩, ⟨0, 0, 0⟩⟩

/-- C10: whenever the stored x-polynomial has quadratic coefficient exactly
`0`, `Extrapolate` yields no future points; and this is reachable through a
*successful* fit — the linear samples fit with `a = 0` on both axes, the
motion estimator stores that polynomial, and extrapolation then returns
nothing.  The `a ≠ 0` sentinel cannot tell "never fitted" from "fitted with
zero x-acceleration". -/
theorem extrapolate_zero_a_sentinel :
    (∀ (tr : Track) (n : ℤ), tr.polyX.a = 0 → Extrapolate tr n = []) ∧
    (FitQuadratic linPts = .ok (⟨0, 1, 0⟩, ⟨0, 1, 0⟩) ∧
      (estimateMotion linTrack).polyX.a = 0 ∧
      Extrapolate (estimateMotion linTrack) 1 = []) := by
  have hfitlin : FitQuadratic linPts = .ok (⟨0, 1, 0⟩, ⟨0, 1, 0⟩) := by
    norm_num [FitQuadratic, coeffMatrix, cramerSolve, bXvec, bYvec, S, SX, SY, determinant,
      replCol0, replCol1, replCol2, getPt, linPts]
  have hgen : ∀ (tr : Track) (n : ℤ), tr.polyX.a = 0 → Extrapolate tr n = [] := by
    intro tr n h
    rw [Extrapolate]
    rcases Nat.lt_or_ge tr.points.length 2 with hl | hl
    · rw [if_pos hl]
    · rw [if_neg (by omega), if_neg (by simp [h])]
  have hmot : estimateMotion linTrack = { linTrack with
      polyX := ⟨0, 1, 0⟩, polyY := ⟨0, 1, 0⟩,
      latestVelocity := (1, 1), latestAcceleration := (0, 0) } := by
    have h := hfitlin
    norm_num [linPts] at h
    norm_num [estimateMotion, linTrack, linPts, h, getPt,
      Polynomial.Velocity, Polynomial.Acceleration]
  refine ⟨hgen, hfitlin, by rw [hmot], hgen _ 1 (by rw [hmot])⟩

theorem extrapolate_zero_a_sentinel_witness :
    Extrapolate sentinelTrack 3 = [] :=
  extrapolate_zero_a_sentinel.1 sentinelTrack 3 rfl

/-- `dt` of the finite-difference fallback: elapsed time between the two most
recent points. -/
def dtLast (tr : Track) : ℚ :=
  (getPt tr.points (tr.points.length - 1)).time - (getPt tr.points (tr.points.length - 2)).time

/-- `dt_prev`: elapsed time between the second- and third-most-recent points. -/
def dtPrev (tr : Track) : ℚ :=
  (getPt tr.points (tr.points.length - 2)).time - (getPt tr.points (tr.points.length - 3)).time

/-- The finite-difference velocity `(p_last - p_prev) / dt`. -/
def fdVelocity (tr : Track) : ℚ × ℚ :=
  (((getPt tr.points (tr.points.length - 1)).x - (getPt tr.points (tr.points.length - 2)).x)
      / dtLast tr,
   ((getPt tr.points (tr.points.length - 1)).y - (getPt tr.points (tr.points.length - 2)).y)
      / dtLast tr)

/-- The finite-difference velocity of the previous interval. -/
def fdPrevVelocity (tr : Track) : ℚ × ℚ :=
  (((getPt tr.points (tr.points.length - 2)).x - (getPt tr.points (tr.points.length - 3)).x)
      / dtPrev tr,
   ((getPt tr.points (tr.points.length - 2)).y - (getPt tr.points (tr.points.length - 3)).y)
      / dtPrev tr)

/-- The velocity the fallback leaves in place: updated only when `dt > 0`. -/
def newVelocity (tr : Track) : ℚ × ℚ :=
  if 0 < dtLast tr then fdVelocity tr else tr.latestVelocity

/-- The fallback acceleration estimate: change of finite-difference velocity
divided by the average `(dt + dt_prev)/2`; note it reads the *current*
velocity field, which is stale when `dt ≤ 0`. -/
def fdAcceleration (tr : Track) : ℚ × ℚ :=
  (((newVelocity tr).1 - (fdPrevVelocity tr).1) / ((dtLast tr + dtPrev tr) / 2),
   ((newVelocity tr).2 - (fdPrevVelocity tr).2) / ((dtLast tr + dtPrev tr) / 2))

/-- The elapsed time of the last point, used by the fit branch. -/
def lastElapsed (tr : Track) : ℚ :=
  (getPt tr.points (tr.points.length - 1)).time - (getPt tr.points 0).time

/-- The finite-difference branch of `estimateMotion`, written with the named
quantities above. -/
def fallbackStep (tr : Track) : Track :=
  let tr1 := if 0 < dtLast tr then { tr with latestVelocity := fdVelocity tr } else tr
  if tr.points.length < 3 then tr1
  else if 0 < dtPrev tr then
    if 0 < (dtLast tr + dtPrev tr) / 2 then
      { tr1 with latestAcceleration :=
          ((tr1.latestVelocity.1 - (fdPrevVelocity tr).1) / ((dtLast tr + dtPrev tr) / 2),
           (tr1.latestVelocity.2 - (fdPrevVelocity tr).2) / ((dtLast tr + dtPrev tr) / 2)) }
    else tr1
  else tr1

lemma estimateMotion_fallback (tr : Track) (h2 : 2 ≤ tr.points.length)
    (hnofit : tr.points.length < 4 ∨ ∃ e, FitQuadratic tr.points = .error e) :
    estimateMotion tr = fallbackStep tr := by
  have h2' : ¬ tr.points.length < 2 := by omega
  by_cases h4 : 4 ≤ tr.points.length
  · rcases hnofit with h | ⟨e, he⟩
    · omega
    · simp only [estimateMotion, if_neg h2', if_pos h4, he, fallbackStep, fdAcceleration,
        newVelocity, fdVelocity, fdPrevVelocity, dtLast, dtPrev]
  · simp only [estimateMotion, if_neg h2', if_neg h4, fallbackStep, fdAcceleration,
      newVelocity, fdVelocity, fdPrevVelocity, dtLast, dtPrev]

/-- C5 (amended): after a point append, a Track with at least 4 points and a
successful fit stores both polynomials and sets velocity/acceleration from
them; otherwise the finite-difference fallback updates the velocity only when
`dt > 0` — but the acceleration is still recomputed (from the possibly stale
current velocity) whenever the track has at least 3 points and both `dt_prev`
and the average `(dt + dt_prev)/2` are positive, even when `dt ≤ 0`. -/
theorem estimateMotion_policy (tr : Track) :
    (∀ px py, 4 ≤ tr.points.length → FitQuadratic tr.points = .ok (px, py) →
      estimateMotion tr = { tr with
        polyX := px, polyY := py,
        latestVelocity := (px.Velocity (lastElapsed tr), py.Velocity (lastElapsed tr)),
        latestAcceleration := (px.Acceleration, py.Acceleration) }) ∧
    (2 ≤ tr.points.length →
      (tr.points.length < 4 ∨ ∃ e, FitQuadratic tr.points = .error e) →
      (estimateMotion tr).points = tr.points ∧
      (estimateMotion tr).polyX = tr.polyX ∧ (estimateMotion tr).polyY = tr.polyY ∧
      (dtLast tr ≤ 0 → (estimateMotion tr).latestVelocity = tr.latestVelocity) ∧
      (0 < dtLast tr → (estimateMotion tr).latestVelocity = fdVelocity tr) ∧
      ((tr.points.length < 3 ∨ dtPrev tr ≤ 0 ∨ (dtLast tr + dtPrev tr) / 2 ≤ 0) →
        (estimateMotion tr).latestAcceleration = tr.latestAcceleration) ∧
      (3 ≤ tr.points.length → 0 < dtPrev tr → 0 < (dtLast tr + dtPrev tr) / 2 →
        (estimateMotion tr).latestAcceleration = fdAcceleration tr)) := by
  constructor
  · intro px py h4 hfit
    have h2' : ¬ tr.points.length < 2 := by omega
    simp only [estimateMotion, if_neg h2', if_pos h4, hfit, lastElapsed]
  · intro h2 hnofit
    rw [estimateMotion_fallback tr h2 hnofit]
    refine ⟨?_, ?_, ?_, fun h => ?_, fun h => ?_, fun h => ?_, fun h3 hp ha => ?_⟩
    · simp only [fallbackStep]; split_ifs <;> rfl
    · simp only [fallbackStep]; split_ifs <;> rfl
    · simp only [fallbackStep]; split_ifs <;> rfl
    · simp only [fallbackStep]; split_ifs <;> first | rfl | linarith
    · simp only [fallbackStep]; split_ifs <;> rfl
    · simp only [fallbackStep]
      split_ifs <;>
        first
          | rfl
          | (rcases h with h | h | h <;> first | omega | linarith)
    · simp only [fallbackStep, fdAcceleration, newVelocity]
      split_ifs <;> first | rfl | omega

/-- A 3-point Track whose two most recent points share a timestamp
(`dt = 0`) while the previous interval is positive. -/
def staleTrack : Track :=
  ⟨0, [⟨0, 0, 0⟩, ⟨2, 4, 4⟩, ⟨2, 9, 9⟩], (0, 0), (0, 0), false, ⟨0, 0, 0⟩, ⟨0, 0, 0⟩⟩

/-- Counterexample to C5 as stated: with `dt ≤ 0` the fallback leaves the
velocity alone but still recomputes the acceleration (here from `(0,0)` to
`(-2,-2)`), so "previous velocity and acceleration are left unchanged" is
false for the acceleration. -/
theorem estimateMotion_stale_accel_cex :
    dtLast staleTrack ≤ 0 ∧
    (estimateMotion staleTrack).latestVelocity = staleTrack.latestVelocity ∧
    (estimateMotion staleTrack).latestAcceleration ≠ staleTrack.latestAcceleration := by
  norm_num [estimateMotion, staleTrack, dtLast, getPt]

/-- A 4-point Track about to receive its first successful fit. -/
def preFitTrack : Track := ⟨0, pts4, (0, 0), (0, 0), false, ⟨0, 0, 0⟩, ⟨0, 0, 0⟩⟩

theorem estimateMotion_policy_witness :
    estimateMotion preFitTrack = { preFitTrack with
      polyX := (⟨1, 0, 0⟩ : Polynomial), polyY := (⟨1, 0, 0⟩ : Polynomial),
      latestVelocity := ((⟨1, 0, 0⟩ : Polynomial).Velocity (lastElapsed preFitTrack),
                         (⟨1, 0, 0⟩ : Polynomial).Velocity (lastElapsed preFitTrack)),
      latestAcceleration := ((⟨1, 0, 0⟩ : Polynomial).Acceleration,
                             (⟨1, 0, 0⟩ : Polynomial).Acceleration) } :=
  (estimateMotion_policy preFitTrack).1 ⟨1, 0, 0⟩ ⟨1, 0, 0⟩
    (by norm_num [preFitTrack, pts4]) fit_pts4

lemma estimateMotion_id_points (tr : Track) :
    (estimateMotion tr).id = tr.id ∧ (estimateMotion tr).points = tr.points := by
  by_cases h2 : tr.points.length < 2
  · constructor <;> rw [estimateMotion, if_pos h2]
  · by_cases h4 : 4 ≤ tr.points.length
    · cases hfit : FitQuadratic tr.points with
      | error e =>
        rw [estimateMotion_fallback tr (by omega) (Or.inr ⟨e, hfit⟩)]
        constructor <;> (simp only [fallbackStep]; split_ifs <;> rfl)
      | ok v =>
        obtain ⟨px, py⟩ := v
        simp [estimateMotion, if_neg h2, if_pos h4, hfit]
    · rw [estimateMotion_fallback tr (by omega) (Or.inl (by omega))]
      constructor <;> (simp only [fallbackStep]; split_ifs <;> rfl)

/-- C2 (amended): a Track whose correspondence carries `tracked == false` is
dropped from the store's track collection entirely: no track with its id
remains in `tracks` (hence none in any `GetTracks` view); the store never
mutates it again — but it is *not* retained in any history. -/
theorem lost_track_dropped (tk : Tracker) (corrs : List Correspondence) (ts : ℚ) (i : ℕ)
    (hi : i < tk.tracks.length) (hic : i < corrs.length)
    (hnodup : (tk.tracks.map Track.id).Nodup)
    (hfalse : corrs[i].tracked = false) :
    tk.tracks[i].id ∉ ((ingest tk corrs ts).tracks.map Track.id) ∧
    tk.tracks[i].id ∉ ((GetTracks (ingest tk corrs ts)).map Track.id) := by
  have main : ∀ tr ∈ (ingest tk corrs ts).tracks, tr.id ≠ tk.tracks[i].id := by
    intro tr htr heq
    simp only [ingest] at htr
    rw [updateTracks] at htr
    obtain ⟨⟨t1, c⟩, htc, hsome⟩ := List.mem_filterMap.1 htr
    obtain ⟨j, hj, hget⟩ := List.mem_iff_getElem.1 htc
    rw [List.getElem_zip] at hget
    have hjt : j < tk.tracks.length := by rw [List.length_zip] at hj; omega
    have hjc : j < corrs.length := by rw [List.length_zip] at hj; omega
    have ht1 : t1 = tk.tracks[j] := by
      have := congrArg Prod.fst hget; simpa using this.symm
    have hc : c = corrs[j] := by
      have := congrArg Prod.snd hget; simpa using this.symm
    split_ifs at hsome with h1 h2
    -- `split_ifs` discharges the two `none = some tr` branches itself
    have htr_eq : estimateMotion
        { t1 with points := t1.points ++ [⟨ts, c.pos.1, c.pos.2⟩] } = tr :=
      Option.some.inj hsome
    have hid : tr.id = t1.id := by
      rw [← htr_eq]; exact (estimateMotion_id_points _).1
    have hjm : j < (tk.tracks.map Track.id).length := by simpa using hjt
    have him : i < (tk.tracks.map Track.id).length := by simpa using hi
    have hij : j = i := by
      have hmapped : (tk.tracks.map Track.id)[j] = (tk.tracks.map Track.id)[i] := by
        rw [List.getElem_map, List.getElem_map, ← ht1, ← hid, heq]
      exact (hnodup.getElem_inj_iff).1 hmapped
    subst hij
    rw [hc] at h2
    have htracked : corrs[j].tracked = true := by simpa using h2
    rw [hfalse] at htracked
    exact Bool.false_ne_true htracked
  constructor
  · intro hmem
    obtain ⟨tr, htr, hid⟩ := List.mem_map.1 hmem
    exact main tr htr hid
  · intro hmem
    obtain ⟨tr, htr, hid⟩ := List.mem_map.1 hmem
    exact main tr (List.mem_of_mem_filter htr) hid

/-- A store holding one live Track with id 0. -/
def lostCexTracker : Tracker :=
  ⟨1, 1, [⟨0, [⟨0, 5, 5⟩], (0, 0), (0, 0), false, ⟨0, 0, 0⟩, ⟨0, 0, 0⟩⟩]⟩

/-- Counterexample to C2 as stated: the Track is active (id 0), its
correspondence carries `tracked == false`, and after the ingest the store's
track collection is empty — nothing remains retrievable from the store, so
there is no "history" retention. -/
theorem lost_track_not_retained_cex :
    (GetTracks lostCexTracker).map Track.id = [0] ∧
    (ingest lostCexTracker [⟨(6, 6), false⟩] 1).tracks = [] := by
  constructor
  · rfl
  · rfl

theorem lost_track_dropped_witness :
    lostCexTracker.tracks[0].id ∉
      ((ingest lostCexTracker [⟨(6, 6), false⟩] 1).tracks.map Track.id) :=
  (lost_track_dropped lostCexTracker [⟨(6, 6), false⟩] 1 0
    (by norm_num [lostCexTracker]) (by norm_num)
    (by simp [lostCexTracker]) rfl).1

lemma seedTracks_map_id (ts : ℚ) : ∀ (fs : List (ℚ × ℚ)) (nid : ℕ),
    (seedTracks nid ts fs).map Track.id = List.range' nid fs.length
  | [], _ => rfl
  | f :: fs, nid => by
    simp only [seedTracks, List.map_cons, seedTracks_map_id ts fs (nid + 1),
      List.length_cons, List.range'_succ]

lemma assigned_eq_range : ∀ (ops : List Op) (tk : Tracker),
    List.range tk.nextTrackID ++ runAssigned tk ops =
      List.range (runOps tk ops).nextTrackID
  | [], tk => by simp [runAssigned, runOps]
  | op :: ops, tk => by
    have ih := assigned_eq_range ops (applyOp tk op)
    rw [runAssigned, show runOps tk (op :: ops) = runOps (applyOp tk op) ops from rfl,
      ← ih, ← List.append_assoc]
    congr 1
    cases op with
    | ingest cs ts => simp [opAssigned, applyOp, ingest]
    | init fs ts =>
      by_cases h : fs.length = 0
      · simp [opAssigned, applyOp, initializeTracks, h]
      · simp only [opAssigned, if_neg h, applyOp, initializeTracks]
        rw [seedTracks_map_id]
        have h2 := List.range'_append 0 tk.nextTrackID fs.length 1
        simp only [one_mul, zero_add] at h2
        rw [List.range_eq_range', List.range_eq_range', h2, Nat.add_comm]

/-- C6: over any sequence of `Initialize`/`Ingest` operations on one store,
the ids assigned (in order of assignment) are exactly `0, 1, 2, …` up to the
final `nextTrackID`: all distinct, monotone from 0, never reused — also after
tracks are lost. -/
theorem ids_assigned_sequentially (m : ℤ) (ops : List Op) :
    runAssigned (mkTracker m) ops =
      List.range ((runOps (mkTracker m) ops).nextTrackID) ∧
    (runAssigned (mkTracker m) ops).Nodup := by
  have h := assigned_eq_range ops (mkTracker m)
  simp only [mkTracker, List.range_zero, List.nil_append] at h
  exact ⟨h, h ▸ List.nodup_range _⟩

/-- Every track of the store has a non-empty, strictly time-increasing point
sequence whose times are all bounded by `b`. -/
def TimesOk (b : ℚ) (tk : Tracker) : Prop :=
  ∀ tr ∈ tk.tracks, tr.points ≠ [] ∧
    tr.points.Chain' (fun p q => p.time < q.time) ∧ ∀ p ∈ tr.points, p.time ≤ b

lemma seedTracks_points (ts : ℚ) : ∀ (fs : List (ℚ × ℚ)) (nid : ℕ) (tr : Track),
    tr ∈ seedTracks nid ts fs → ∃ x y, tr.points = [⟨ts, x, y⟩]
  | [], _, tr => by simp [seedTracks]
  | f :: fs, nid, tr => by
    intro h
    rw [seedTracks] at h
    rcases List.mem_cons.1 h with rfl | h
    · exact ⟨f.1, f.2, rfl⟩
    · exact seedTracks_points ts fs (nid + 1) tr h

lemma timesOk_mono {b c : ℚ} (h : b ≤ c) {tk : Tracker} (ht : TimesOk b tk) :
    TimesOk c tk := by
  intro tr htr
  obtain ⟨h1, h2, h3⟩ := ht tr htr
  exact ⟨h1, h2, fun p hp => (h3 p hp).trans h⟩

lemma timesOk_step {b : ℚ} (tk : Tracker) (op : Op) (ht : TimesOk b tk)
    (hbt : b < op.time) : TimesOk op.time (applyOp tk op) := by
  cases op with
  | init fs ts =>
    by_cases h : fs.length = 0
    · simp only [applyOp, initializeTracks, if_pos h]
      exact timesOk_mono hbt.le ht
    · simp only [applyOp, initializeTracks, if_neg h]
      intro tr htr
      rcases List.mem_append.1 htr with hold | hnew
      · obtain ⟨h1, h2, h3⟩ := ht tr hold
        exact ⟨h1, h2, fun p hp => (h3 p hp).trans hbt.le⟩
      · obtain ⟨x, y, hxy⟩ := seedTracks_points ts fs tk.nextTrackID tr hnew
        rw [hxy]
        refine ⟨by simp, List.chain'_singleton _, ?_⟩
        intro p hp
        rw [List.mem_singleton] at hp
        rw [hp]
        exact le_rfl
  | ingest cs ts =>
    intro tr htr
    simp only [applyOp, ingest] at htr
    rw [updateTracks] at htr
    obtain ⟨⟨t1, c⟩, htc, hsome⟩ := List.mem_filterMap.1 htr
    obtain ⟨h1', h2', h3'⟩ := ht t1 (List.of_mem_zip htc).1
    split_ifs at hsome with hl htrk
    have htr_eq : estimateMotion
        { t1 with points := t1.points ++ [⟨ts, c.pos.1, c.pos.2⟩] } = tr :=
      Option.some.inj hsome
    have hpts : tr.points = t1.points ++ [⟨ts, c.pos.1, c.pos.2⟩] := by
      rw [← htr_eq]; exact (estimateMotion_id_points _).2
    refine ⟨by simp [hpts], ?_, ?_⟩
    · rw [hpts, List.chain'_append]
      refine ⟨h2', List.chain'_singleton _, ?_⟩
      intro x hx y hy
      have hx' : x ∈ t1.points := List.mem_of_mem_getLast? hx
      have hy' : y = (⟨ts, c.pos.1, c.pos.2⟩ : Point) :=
        (show (⟨ts, c.pos.1, c.pos.2⟩ : Point) = y by simpa using hy).symm
      rw [hy']
      exact lt_of_le_of_lt (h3' x hx') hbt
    · intro p hp
      rw [hpts] at hp
      rcases List.mem_append.1 hp with hp | hp
      · exact (h3' p hp).trans hbt.le
      · rw [List.mem_singleton] at hp
        rw [hp]
        exact le_rfl

lemma timesOk_run : ∀ (ops : List Op) (tk : Tracker) (b : ℚ), TimesOk b tk →
    (b :: ops.map Op.time).Chain' (· < ·) → ∃ c, TimesOk c (runOps tk ops)
  | [], _, b, ht, _ => ⟨b, ht⟩
  | op :: ops, tk, b, ht, hch => by
    rw [List.map_cons, List.chain'_cons] at hch
    exact timesOk_run ops (applyOp tk op) op.time
      (timesOk_step tk op ht hch.1) hch.2

/-- C9 (amended): for runs whose operation timestamps are strictly
increasing, every live Track has a non-empty point sequence with strictly
increasing timestamps.  (With arbitrary caller-supplied timestamps the
strict-increase part fails: the store appends whatever timestamp it is
given.) -/
theorem tracker_points_invariant (m : ℤ) (ops : List Op)
    (hmono : (ops.map Op.time).Chain' (· < ·)) :
    ∀ tr ∈ (runOps (mkTracker m) ops).tracks,
      tr.points ≠ [] ∧ tr.points.Chain' (fun p q => p.time < q.time) := by
  cases ops with
  | nil => intro tr htr; simp [runOps, mkTracker] at htr
  | cons op ops' =>
    have h0 : TimesOk (op.time - 1) (mkTracker m) := by
      intro tr htr; simp [mkTracker] at htr
    have hch : ((op.time - 1) :: (op :: ops').map Op.time).Chain' (· < ·) := by
      rw [List.map_cons, List.chain'_cons]
      exact ⟨by linarith, by rw [← List.map_cons]; exact hmono⟩
    obtain ⟨c, hc⟩ := timesOk_run (op :: ops') (mkTracker m) (op.time - 1) h0 hch
    intro tr htr
    obtain ⟨h1, h2, _⟩ := hc tr htr
    exact ⟨h1, h2⟩

/-- A seed at `t = 1` followed by an ingest at the earlier time `t = 0`. -/
def badOps : List Op := [.init [(0, 0)] 1, .ingest [⟨(1, 1), true⟩] 0]

/-- Counterexample to C9 as stated: with arbitrary caller-supplied
timestamps, a live Track can end up with the non-increasing time sequence
`[1, 0]` — the store performs no timestamp check. -/
theorem timestamps_not_monotone_cex :
    (runOps (mkTracker 1) badOps).tracks.map (fun tr => tr.points.map Point.time) =
      [[1, 0]] ∧
    ¬ List.Chain' (· < ·) [(1 : ℚ), 0] := by
  constructor
  · norm_num [badOps, runOps, applyOp, ingest, initializeTracks, seedTracks, updateTracks,
      estimateMotion, getPt, mkTracker, List.zip_cons_cons, List.filterMap_cons,
      List.getD_cons_zero, List.getD_cons_succ, List.getD]
  · rw [List.chain'_cons]
    norm_num

theorem tracker_points_invariant_witness :
    scenarioTrack.points ≠ [] ∧
      scenarioTrack.points.Chain' (fun p q => p.time < q.time) :=
  tracker_points_invariant 1 scenarioOps
    (by rw [show scenarioOps.map Op.time = [0, 1, 2, 3] from rfl]
        rw [List.chain'_cons, List.chain'_cons, List.chain'_cons]
        norm_num)
    scenarioTrack
    (by rw [run_scenario]; exact List.mem_singleton.2 rfl)

/-- `math.MaxFloat64` as an exact rational: `(2^53 - 1) · 2^971`. -/
def maxFloat64 : ℚ := (2 ^ 53 - 1) * 2 ^ 971

/-- The triple loop of `calculateSmoothnessMetric` over the position
sequence: total absolute turning angle and number of valid segments.
`f` models `math.Atan2`; `angleBetween v1 v2 = atan2(cross(v1,v2),
dot(v1,v2))` becomes `f cross dot`.  Zero-length direction vectors are
skipped, as in the source. -/
def smoothnessSteps (f : ℚ → ℚ → ℚ) : List (ℚ × ℚ) → ℚ × ℕ
  | p1 :: p2 :: p3 :: rest =>
    let v1 : ℚ × ℚ := (p2.1 - p1.1, p2.2 - p1.2)
    let v2 : ℚ × ℚ := (p3.1 - p2.1, p3.2 - p2.2)
    let sc := smoothnessSteps f (p2 :: p3 :: rest)
    if (v1.1 = 0 ∧ v1.2 = 0) ∨ (v2.1 = 0 ∧ v2.2 = 0) then sc
    else (sc.1 + |f (v1.1 * v2.2 - v1.2 * v2.1) (v1.1 * v2.1 + v1.2 * v2.2)|, sc.2 + 1)
  | _ => (0, 0)

/-- `calculateSmoothnessMetric`: mean absolute turning angle; `0` below 3
points, `math.MaxFloat64` when no segment is valid. -/
def calculateSmoothnessMetric (f : ℚ → ℚ → ℚ) (track : Track) : ℚ :=
  if track.points.length < 3 then 0
  else
    let sc := smoothnessSteps f (track.points.map fun p => (p.x, p.y))
    if 0 < sc.2 then sc.1 / (sc.2 : ℚ) else maxFloat64

/-- The `less` closure passed to `sort.Slice` in
`FilterTracksByDensityAndSmoothness`: longer track first, then lower
smoothness metric. -/
def lessTrack (f : ℚ → ℚ → ℚ) (a b : Track) : Prop :=
  b.points.length < a.points.length ∨
    (a.points.length = b.points.length ∧
      calculateSmoothnessMetric f a < calculateSmoothnessMetric f b)

instance decLessTrack (f : ℚ → ℚ → ℚ) : DecidableRel (lessTrack f) := fun a b => by
  unfold lessTrack; infer_instance

/-- The weak order used to determinise the unstable `sort.Slice` as a stable
insertion sort: `a` may stay before `b` unless `b` is strictly `less`. -/
def leTrack (f : ℚ → ℚ → ℚ) (a b : Track) : Prop := ¬ lessTrack f b a

instance decLeTrack (f : ℚ → ℚ → ℚ) : DecidableRel (leTrack f) := fun a b => by
  unfold leTrack; infer_instance

/-- Go's `int(x)` conversion of a `float`: truncation toward zero. -/
def truncQ (q : ℚ) : ℤ := if q < 0 then -⌊-q⌋ else ⌊q⌋

/-- The grid cell of a track: its *first* point's coordinates converted with
`int(·)` and divided by the cell size with Go's truncating integer division
(`Int.tdiv`). -/
def cellKey (cs : ℤ) (tr : Track) : ℤ × ℤ :=
  ((truncQ (getPt tr.points 0).x).tdiv cs, (truncQ (getPt tr.points 0).y).tdiv cs)

/-- The grid: an association list from cell to the tracks binned there, in
first-insertion order (a determinisation of the Go map). -/
abbrev Grid := List ((ℤ × ℤ) × List Track)

/-- `grid[cell] = append(grid[cell], track)`: append to the existing entry,
or create a new entry at the end. -/
def insertGrid (k : ℤ × ℤ) (tr : Track) : Grid → Grid
  | [] => [(k, [tr])]
  | e :: rest => if e.1 = k then (e.1, e.2 ++ [tr]) :: rest else e :: insertGrid k tr rest

/-- Step 1 of `FilterTracksByDensityAndSmoothness`: bin the tracks into the
grid, skipping tracks without points. -/
def buildGrid (cs : ℤ) (tracks : List Track) : Grid :=
  tracks.foldl (fun g tr => if tr.points.isEmpty then g else insertGrid (cellKey cs tr) tr g) []

/-- The per-cell selection: sort by `less` (longer first, then smoother) and
keep the top `min(len, maxTracksPerCell)` (`tracksInCell[:numToKeep]`). -/
def keepCell (f : ℚ → ℚ → ℚ) (mx : ℤ) (cell : List Track) : List Track :=
  (List.insertionSort (leTrack f) cell).take mx.toNat

/-- `FilterTracksByDensityAndSmoothness` from `filters.go`: default the cell
size to 32 when non-positive, bin by first point, skip cells with fewer than
`minTracksPerCell` tracks, and keep the top `maxTracksPerCell` of each
surviving cell. -/
def FilterTracksByDensityAndSmoothness (f : ℚ → ℚ → ℚ) (tracks : List Track)
    (gridCellSize minTracksPerCell maxTracksPerCell : ℤ) : List Track :=
  let cs := if gridCellSize ≤ 0 then 32 else gridCellSize
  (buildGrid cs tracks).foldl (fun acc e =>
    if (e.2.length : ℤ) < minTracksPerCell then acc
    else acc ++ keepCell f maxTracksPerCell e.2) []

/-- The tracks that take part in binning (non-empty point list). -/
def binnedTracks (tracks : List Track) : List Track :=
  tracks.filter fun tr => !tr.points.isEmpty

/-- The content of a grid cell: the binned tracks with that key, in input
order. -/
def cellTracks (cs : ℤ) (tracks : List Track) (k : ℤ × ℤ) : List Track :=
  (binnedTracks tracks).filter fun tr => cellKey cs tr = k

/-- Deduplication keeping first occurrences, from a given accumulator. -/
def firstKeysFrom (acc : List (ℤ × ℤ)) (ks : List (ℤ × ℤ)) : List (ℤ × ℤ) :=
  ks.foldl (fun a k => if k ∈ a then a else a ++ [k]) acc

/-- The distinct cell keys in first-occurrence order. -/
def firstKeys (ks : List (ℤ × ℤ)) : List (ℤ × ℤ) := firstKeysFrom [] ks

/-- The density filter in the spec's shape, parameterised by the binning
function: for each occupied cell (key computed by `key`), discard it if it
holds fewer than `minTracksPerCell` tracks, otherwise keep the top
`maxTracksPerCell` under (longer, then smoother). -/
def filterSpecWith (key : ℤ → Track → ℤ × ℤ) (f : ℚ → ℚ → ℚ) (tracks : List Track)
    (gridCellSize minTracksPerCell maxTracksPerCell : ℤ) : List Track :=
  let cs := if gridCellSize ≤ 0 then 32 else gridCellSize
  let binned := tracks.filter fun tr => !tr.points.isEmpty
  (firstKeys (binned.map (key cs))).flatMap fun k =>
    let cell := binned.filter fun tr => key cs tr = k
    if (cell.length : ℤ) < minTracksPerCell then []
    else keepCell f maxTracksPerCell cell

/-- The claim's binning: first point's coordinates floor-divided by the cell
size (mathematical floor, also for negative coordinates). -/
def floorCellKey (cs : ℤ) (tr : Track) : ℤ × ℤ :=
  (⌊(getPt tr.points 0).x / (cs : ℚ)⌋, ⌊(getPt tr.points 0).y / (cs : ℚ)⌋)

/-- The density filter as the claim C7 words it (floor binning). -/
def filterSpecFloor (f : ℚ → ℚ → ℚ) (tracks : List Track)
    (gridCellSize minTracksPerCell maxTracksPerCell : ℤ) : List Track :=
  filterSpecWith floorCellKey f tracks gridCellSize minTracksPerCell maxTracksPerCell

/-- The density filter with the binning the code actually performs
(truncation toward zero). -/
def filterSpecTrunc (f : ℚ → ℚ → ℚ) (tracks : List Track)
    (gridCellSize minTracksPerCell maxTracksPerCell : ℤ) : List Track :=
  filterSpecWith cellKey f tracks gridCellSize minTracksPerCell maxTracksPerCell

/-- Lookup of a cell's content in the association-list grid. -/
def gfind (k : ℤ × ℤ) : Grid → List Track
  | [] => []
  | e :: rest => if e.1 = k then e.2 else gfind k rest

/-- `buildGrid` generalised over the fold's accumulator. -/
def buildGridFrom (cs : ℤ) (g : Grid) (tracks : List Track) : Grid :=
  tracks.foldl (fun g tr => if tr.points.isEmpty then g else insertGrid (cellKey cs tr) tr g) g

lemma buildGrid_eq (cs : ℤ) (tracks : List Track) :
    buildGrid cs tracks = buildGridFrom cs [] tracks := rfl

lemma firstKeysFrom_cons (acc : List (ℤ × ℤ)) (k : ℤ × ℤ) (ks : List (ℤ × ℤ)) :
    firstKeysFrom acc (k :: ks) = firstKeysFrom (if k ∈ acc then acc else acc ++ [k]) ks := rfl

lemma insertGrid_keys (k : ℤ × ℤ) (tr : Track) : ∀ g : Grid,
    (insertGrid k tr g).map Prod.fst =
      if k ∈ g.map Prod.fst then g.map Prod.fst else g.map Prod.fst ++ [k]
  | [] => by simp [insertGrid]
  | e :: rest => by
    rw [insertGrid]
    by_cases h : e.1 = k
    · subst h; simp
    · rw [if_neg h]
      simp only [List.map_cons, List.mem_cons]
      rw [insertGrid_keys k tr rest]
      by_cases hm : k ∈ rest.map Prod.fst
      · simp [hm]
      · simp [hm, Ne.symm h]

lemma gfind_insertGrid (k k' : ℤ × ℤ) (tr : Track) : ∀ g : Grid,
    gfind k (insertGrid k' tr g) =
      if k = k' then gfind k g ++ [tr] else gfind k g
  | [] => by
    by_cases h : k = k'
    · subst h; simp [insertGrid, gfind]
    · simp [insertGrid, gfind, h, Ne.symm h]
  | e :: rest => by
    rw [insertGrid]
    by_cases h : e.1 = k'
    · subst h
      rw [if_pos rfl]
      by_cases hk : k = e.1
      · subst hk; simp [gfind]
      · rw [gfind, if_neg fun hh => hk hh.symm, if_neg hk, gfind,
          if_neg fun hh => hk hh.symm]
    · rw [if_neg h]
      by_cases hk2 : k = k'
      · rw [if_pos hk2, gfind, gfind]
        by_cases hek : e.1 = k
        · exact absurd (hek.trans hk2) h
        · rw [if_neg hek, if_neg hek, gfind_insertGrid k k' tr rest, if_pos hk2]
      · rw [if_neg hk2, gfind, gfind]
        by_cases hek : e.1 = k
        · rw [if_pos hek, if_pos hek]
        · rw [if_neg hek, if_neg hek, gfind_insertGrid k k' tr rest, if_neg hk2]

lemma gfind_buildGridFrom (cs : ℤ) (k : ℤ × ℤ) : ∀ (l : List Track) (g : Grid),
    gfind k (buildGridFrom cs g l) = gfind k g ++ cellTracks cs l k
  | [], g => by simp [buildGridFrom, cellTracks, binnedTracks]
  | tr :: l, g => by
    rw [show buildGridFrom cs g (tr :: l) =
        buildGridFrom cs (if tr.points.isEmpty then g else insertGrid (cellKey cs tr) tr g) l
      from rfl]
    by_cases he : tr.points.isEmpty
    · rw [if_pos he, gfind_buildGridFrom cs k l g]
      congr 1
      simp [cellTracks, binnedTracks, List.filter_cons, he]
    · rw [if_neg he, gfind_buildGridFrom cs k l _, gfind_insertGrid]
      by_cases hk : k = cellKey cs tr
      · rw [if_pos hk]
        rw [show cellTracks cs (tr :: l) k = tr :: cellTracks cs l k from by
          simp [cellTracks, binnedTracks, List.filter_cons, he, hk.symm]]
        simp
      · rw [if_neg hk]
        have hk' : ¬ (cellKey cs tr = k) := fun hh => hk hh.symm
        congr 1
        simp [cellTracks, binnedTracks, List.filter_cons, he, hk']

lemma keys_buildGridFrom (cs : ℤ) : ∀ (l : List Track) (g : Grid),
    (buildGridFrom cs g l).map Prod.fst =
      firstKeysFrom (g.map Prod.fst) ((binnedTracks l).map (cellKey cs))
  | [], g => by simp [buildGridFrom, firstKeysFrom, binnedTracks]
  | tr :: l, g => by
    rw [show buildGridFrom cs g (tr :: l) =
        buildGridFrom cs (if tr.points.isEmpty then g else insertGrid (cellKey cs tr) tr g) l
      from rfl]
    by_cases he : tr.points.isEmpty
    · rw [if_pos he, keys_buildGridFrom cs l g]
      congr 1
      simp [binnedTracks, List.filter_cons, he]
    · rw [if_neg he, keys_buildGridFrom cs l _]
      rw [show (binnedTracks (tr :: l)).map (cellKey cs) =
          cellKey cs tr :: (binnedTracks l).map (cellKey cs) from by
        simp [binnedTracks, List.filter_cons, he]]
      rw [firstKeysFrom_cons]
      congr 1
      exact insertGrid_keys (cellKey cs tr) tr g

lemma nodup_firstKeysFrom : ∀ (ks acc : List (ℤ × ℤ)), acc.Nodup → (firstKeysFrom acc ks).Nodup
  | [], _, h => h
  | k :: ks, acc, h => by
    rw [firstKeysFrom_cons]
    by_cases hm : k ∈ acc
    · rw [if_pos hm]; exact nodup_firstKeysFrom ks acc h
    · rw [if_neg hm]
      refine nodup_firstKeysFrom ks _ (List.Nodup.append h (List.nodup_singleton k) ?_)
      simp [List.disjoint_singleton, hm]

lemma mem_firstKeysFrom : ∀ (ks acc : List (ℤ × ℤ)) (k : ℤ × ℤ),
    k ∈ firstKeysFrom acc ks ↔ k ∈ acc ∨ k ∈ ks
  | [], acc, k => by simp [firstKeysFrom]
  | k' :: ks, acc, k => by
    rw [firstKeysFrom_cons]
    by_cases hm : k' ∈ acc
    · rw [if_pos hm, mem_firstKeysFrom ks acc k, List.mem_cons]
      constructor
      · rintro (h | h)
        · exact Or.inl h
        · exact Or.inr (Or.inr h)
      · rintro (h | rfl | h)
        · exact Or.inl h
        · exact Or.inl hm
        · exact Or.inr h
    · rw [if_neg hm, mem_firstKeysFrom ks _ k, List.mem_append, List.mem_singleton,
        List.mem_cons]
      tauto

lemma entry_eq_gfind : ∀ (g : Grid), (g.map Prod.fst).Nodup → ∀ e ∈ g, gfind e.1 g = e.2
  | [], _, e, he => absurd he (List.not_mem_nil e)
  | e' :: rest, h, e, he => by
    rw [List.map_cons, List.nodup_cons] at h
    rcases List.mem_cons.1 he with rfl | hmem
    · rw [gfind, if_pos rfl]
    · have hne : ¬ (e'.1 = e.1) := by
        intro hh
        exact h.1 (by rw [hh]; exact List.mem_map_of_mem Prod.fst hmem)
      rw [gfind, if_neg hne]
      exact entry_eq_gfind rest h.2 e hmem

lemma foldl_append_eq_flatMap {α β : Type} (h : α → List β) : ∀ (l : List α) (acc : List β),
    l.foldl (fun a e => a ++ h e) acc = acc ++ l.flatMap h
  | [], acc => by simp
  | e :: l, acc => by
    rw [List.foldl_cons, foldl_append_eq_flatMap h l, List.flatMap_cons, List.append_assoc]

lemma filter_eq_specTrunc (f : ℚ → ℚ → ℚ) (tracks : List Track)
    (gcs mn mx : ℤ) :
    FilterTracksByDensityAndSmoothness f tracks gcs mn mx =
      filterSpecTrunc f tracks gcs mn mx := by
  rw [FilterTracksByDensityAndSmoothness]
  have hfold := List.foldl_ext
    (fun acc (e : (ℤ × ℤ) × List Track) =>
      if (e.2.length : ℤ) < mn then acc else acc ++ keepCell f mx e.2)
    (fun acc (e : (ℤ × ℤ) × List Track) =>
      acc ++ if (e.2.length : ℤ) < mn then [] else keepCell f mx e.2)
    (l := buildGrid (if gcs ≤ 0 then 32 else gcs) tracks) []
    (fun a e _ => by dsimp only; split_ifs <;> simp)
  rw [hfold, foldl_append_eq_flatMap, List.nil_append]
  have hkeys : (buildGrid (if gcs ≤ 0 then 32 else gcs) tracks).map Prod.fst =
      firstKeys ((binnedTracks tracks).map (cellKey (if gcs ≤ 0 then 32 else gcs))) := by
    rw [buildGrid_eq, keys_buildGridFrom]; rfl
  have hnodup : ((buildGrid (if gcs ≤ 0 then 32 else gcs) tracks).map Prod.fst).Nodup := by
    rw [hkeys]; exact nodup_firstKeysFrom _ _ List.nodup_nil
  have hcontent : ∀ e ∈ buildGrid (if gcs ≤ 0 then 32 else gcs) tracks,
      e.2 = cellTracks (if gcs ≤ 0 then 32 else gcs) tracks e.1 := by
    intro e he
    rw [← entry_eq_gfind _ hnodup e he, buildGrid_eq, gfind_buildGridFrom]
    rfl
  have hgrid : buildGrid (if gcs ≤ 0 then 32 else gcs) tracks =
      ((buildGrid (if gcs ≤ 0 then 32 else gcs) tracks).map Prod.fst).map
        (fun k => (k, cellTracks (if gcs ≤ 0 then 32 else gcs) tracks k)) := by
    conv_lhs => rw [← List.map_id (buildGrid (if gcs ≤ 0 then 32 else gcs) tracks)]
    rw [List.map_map]
    exact List.map_congr_left fun e he => Prod.ext rfl (hcontent e he)
  rw [hgrid, List.flatMap_map, hkeys]
  rfl

/-- C7 (amended): `FilterTracksByDensityAndSmoothness` equals the spec-shaped
filter that bins each track by its first point's coordinates *truncated
toward zero* (Go's `int(·)` conversion and integer division, not floor
division), discards cells with fewer than `minTracksPerCell` tracks, and
keeps from each surviving cell the top `min(population, maxTracksPerCell)`
tracks under (greater point count, then lower smoothness). -/
theorem density_filter_characterisation (f : ℚ → ℚ → ℚ) (tracks : List Track)
    (gcs mn mx : ℤ) :
    FilterTracksByDensityAndSmoothness f tracks gcs mn mx =
      filterSpecTrunc f tracks gcs mn mx :=
  filter_eq_specTrunc f tracks gcs mn mx

/-- A concrete stand-in for `math.Atan2` in the filter counterexamples (the
tracks involved have fewer than 3 points, so the angle function is never
consulted). -/
def f0 : ℚ → ℚ → ℚ := fun _ _ => 0

/-- A track with a single point, for the filter counterexamples. -/
def onePtTrack (i : ℕ) (x y : ℚ) : Track :=
  ⟨i, [⟨0, x, y⟩], (0, 0), (0, 0), false, ⟨0, 0, 0⟩, ⟨0, 0, 0⟩⟩

/-- Counterexample to C7 as stated: for first points `(-1,0)` and `(1,0)`
with cell size 32 and `min_per_cell = 2`, the two floor cells differ
(`(-1,0)` vs `(0,0)`), so under floor binning each cell is sparse and the
claim predicts the empty output — but the code truncates toward zero, bins
both tracks into cell `(0,0)`, and keeps both. -/
theorem density_filter_floor_cex :
    floorCellKey 32 (onePtTrack 0 (-1) 0) ≠ floorCellKey 32 (onePtTrack 1 1 0) ∧
    FilterTracksByDensityAndSmoothness f0 [onePtTrack 0 (-1) 0, onePtTrack 1 1 0] 32 2 5 =
      [onePtTrack 0 (-1) 0, onePtTrack 1 1 0] ∧
    filterSpecFloor f0 [onePtTrack 0 (-1) 0, onePtTrack 1 1 0] 32 2 5 = [] := by
  refine ⟨?_, ?_, ?_⟩
  · norm_num [floorCellKey, onePtTrack, getPt, Prod.ext_iff]
  · norm_num [FilterTracksByDensityAndSmoothness, buildGrid, insertGrid, cellKey, truncQ,
      keepCell, leTrack, lessTrack, calculateSmoothnessMetric, onePtTrack, getPt,
      List.insertionSort, List.orderedInsert, List.foldl_cons, List.foldl_nil,
      show Int.tdiv (-1) 32 = 0 from by decide, show Int.tdiv 1 32 = 0 from by decide,
      show Int.tdiv 0 32 = 0 from by decide]
  · norm_num [filterSpecFloor, filterSpecWith, floorCellKey, firstKeys, firstKeysFrom,
      keepCell, onePtTrack, getPt, List.foldl_cons, List.foldl_nil, Prod.ext_iff]

/-- Counterexample to C8 as stated: with `min_per_cell = 2 > max_per_cell
= 1`, one pass over three co-binned one-point tracks keeps a single track,
and a second pass discards it (its cell now holds 1 < 2 tracks), so the
filter is not idempotent for every parameter triple. -/
theorem density_filter_not_idempotent_cex :
    FilterTracksByDensityAndSmoothness f0
        [onePtTrack 0 0 0, onePtTrack 1 1 0, onePtTrack 2 2 0] 32 2 1 =
      [onePtTrack 0 0 0] ∧
    FilterTracksByDensityAndSmoothness f0
        (FilterTracksByDensityAndSmoothness f0
          [onePtTrack 0 0 0, onePtTrack 1 1 0, onePtTrack 2 2 0] 32 2 1) 32 2 1 = [] := by
  have h1 : FilterTracksByDensityAndSmoothness f0
      [onePtTrack 0 0 0, onePtTrack 1 1 0, onePtTrack 2 2 0] 32 2 1 =
        [onePtTrack 0 0 0] := by
    norm_num [FilterTracksByDensityAndSmoothness, buildGrid, insertGrid, cellKey, truncQ,
      keepCell, leTrack, lessTrack, calculateSmoothnessMetric, onePtTrack, getPt,
      List.insertionSort, List.orderedInsert, List.foldl_cons, List.foldl_nil,
      show Int.tdiv 0 32 = 0 from by decide, show Int.tdiv 1 32 = 0 from by decide,
      show Int.tdiv 2 32 = 0 from by decide]
  refine ⟨h1, ?_⟩
  rw [h1]
  norm_num [FilterTracksByDensityAndSmoothness, buildGrid, insertGrid, cellKey, truncQ,
    keepCell, onePtTrack, getPt, List.foldl_cons, List.foldl_nil,
    show Int.tdiv 0 32 = 0 from by decide]

lemma mem_keepCell {f : ℚ → ℚ → ℚ} {mx : ℤ} {cell : List Track} {tr : Track}
    (h : tr ∈ keepCell f mx cell) : tr ∈ cell :=
  (List.perm_insertionSort (leTrack f) cell).subset (List.mem_of_mem_take h)

lemma length_keepCell (f : ℚ → ℚ → ℚ) (mx : ℤ) (cell : List Track) :
    (keepCell f mx cell).length = min mx.toNat cell.length := by
  rw [keepCell, List.length_take, (List.perm_insertionSort (leTrack f) cell).length_eq]

lemma mem_keepCell_of_le {f : ℚ → ℚ → ℚ} {mx : ℤ} {cell : List Track} {tr : Track}
    (h : cell.length ≤ mx.toNat) : tr ∈ keepCell f mx cell ↔ tr ∈ cell := by
  rw [keepCell, List.take_of_length_le
    (by rw [(List.perm_insertionSort (leTrack f) cell).length_eq]; exact h)]
  exact (List.perm_insertionSort (leTrack f) cell).mem_iff


/-- One cell's contribution in the spec-shaped trunc filter, named for the
idempotence proof. -/
def truncStep (f : ℚ → ℚ → ℚ) (cs mn mx : ℤ) (tracks : List Track) (k : ℤ × ℤ) :
    List Track :=
  if (((binnedTracks tracks).filter fun tr => cellKey cs tr = k).length : ℤ) < mn then []
  else keepCell f mx ((binnedTracks tracks).filter fun tr => cellKey cs tr = k)

/-- The trunc-binned spec filter with the effective cell size factored out. -/
def specTruncCS (f : ℚ → ℚ → ℚ) (cs mn mx : ℤ) (tracks : List Track) : List Track :=
  (firstKeys ((binnedTracks tracks).map (cellKey cs))).flatMap (truncStep f cs mn mx tracks)

lemma filterSpecTrunc_eq (f : ℚ → ℚ → ℚ) (tracks : List Track) (gcs mn mx : ℤ) :
    filterSpecTrunc f tracks gcs mn mx =
      specTruncCS f (if gcs ≤ 0 then 32 else gcs) mn mx tracks := rfl

lemma mem_truncStep_key {f : ℚ → ℚ → ℚ} {cs mn mx : ℤ} {tracks : List Track}
    {k : ℤ × ℤ} {tr : Track} (h : tr ∈ truncStep f cs mn mx tracks k) :
    cellKey cs tr = k ∧ tr ∈ binnedTracks tracks := by
  rw [truncStep] at h
  split_ifs at h with hc
  · exact absurd h (List.not_mem_nil tr)
  · have hmem := mem_keepCell h
    refine ⟨?_, List.mem_of_mem_filter hmem⟩
    have := List.of_mem_filter hmem
    simpa using this

lemma filter_flatMap_ne {step : (ℤ × ℤ) → List Track} {cs : ℤ} :
    ∀ ks : List (ℤ × ℤ), (∀ k' ∈ ks, ∀ tr ∈ step k', cellKey cs tr = k') →
      ∀ k ∉ ks, (ks.flatMap step).filter (fun tr => cellKey cs tr = k) = []
  | [], _, k, _ => by simp
  | k' :: ks, hom, k, hk => by
    rw [List.flatMap_cons, List.filter_append,
      filter_flatMap_ne ks (fun a ha => hom a (List.mem_cons_of_mem k' ha)) k
        (fun h => hk (List.mem_cons_of_mem k' h)),
      List.append_nil]
    rw [List.filter_eq_nil_iff]
    intro tr htr
    have hkey := hom k' (List.mem_cons_self k' ks) tr htr
    simp only [hkey, decide_eq_true_eq]
    intro hh
    exact hk (hh ▸ List.mem_cons_self k' ks)

lemma filter_flatMap_eq {step : (ℤ × ℤ) → List Track} {cs : ℤ} :
    ∀ ks : List (ℤ × ℤ), ks.Nodup →
      (∀ k' ∈ ks, ∀ tr ∈ step k', cellKey cs tr = k') →
      ∀ k ∈ ks, (ks.flatMap step).filter (fun tr => cellKey cs tr = k) = step k
  | [], _, _, k, hk => absurd hk (List.not_mem_nil k)
  | k' :: ks, hnd, hom, k, hk => by
    rw [List.nodup_cons] at hnd
    rw [List.flatMap_cons, List.filter_append]
    rcases List.mem_cons.1 hk with rfl | hk
    · rw [List.filter_eq_self.2 fun tr htr => by
        simp [hom k (List.mem_cons_self k ks) tr htr]]
      rw [filter_flatMap_ne ks (fun a ha => hom a (List.mem_cons_of_mem k ha)) k hnd.1,
        List.append_nil]
    · rw [filter_flatMap_eq ks hnd.2 (fun a ha => hom a (List.mem_cons_of_mem k' ha)) k hk]
      rw [show List.filter (fun tr => decide (cellKey cs tr = k)) (step k') = [] from
        List.filter_eq_nil_iff.2 fun tr htr => by
          have hkey := hom k' (List.mem_cons_self k' ks) tr htr
          simp only [hkey, decide_eq_true_eq]
          intro hh
          exact hnd.1 (hh ▸ hk)]
      rw [List.nil_append]

lemma mem_specTruncCS_binned {f : ℚ → ℚ → ℚ} {cs mn mx : ℤ} {ts : List Track}
    {tr : Track} (h : tr ∈ specTruncCS f cs mn mx ts) : tr ∈ binnedTracks ts := by
  obtain ⟨k, _, htr⟩ := List.mem_flatMap.1 h
  exact (mem_truncStep_key htr).2

lemma mem_specTruncCS_sub {f : ℚ → ℚ → ℚ} {cs mn mx : ℤ} {ts : List Track}
    {tr : Track} (h : tr ∈ specTruncCS f cs mn mx ts) : tr ∈ ts :=
  List.mem_of_mem_filter (mem_specTruncCS_binned h)

lemma specTruncCS_idem (f : ℚ → ℚ → ℚ) (cs mn mx : ℤ) (tracks : List Track)
    (hminmax : mn ≤ mx) (hmx : 0 ≤ mx) (tr : Track) :
    tr ∈ specTruncCS f cs mn mx (specTruncCS f cs mn mx tracks) ↔
      tr ∈ specTruncCS f cs mn mx tracks := by
  constructor
  · exact fun h => mem_specTruncCS_sub h
  · intro htr
    obtain ⟨k, hk, hstep⟩ := List.mem_flatMap.1 htr
    have hhom : ∀ k' ∈ firstKeys ((binnedTracks tracks).map (cellKey cs)),
        ∀ tr' ∈ truncStep f cs mn mx tracks k', cellKey cs tr' = k' :=
      fun k' _ tr' htr' => (mem_truncStep_key htr').1
    have hnodup : (firstKeys ((binnedTracks tracks).map (cellKey cs))).Nodup :=
      nodup_firstKeysFrom _ _ List.nodup_nil
    have hbinned_out : binnedTracks (specTruncCS f cs mn mx tracks) =
        specTruncCS f cs mn mx tracks := by
      rw [binnedTracks, List.filter_eq_self]
      intro tr' htr'
      simpa using List.of_mem_filter (mem_specTruncCS_binned htr')
    rw [truncStep] at hstep
    split_ifs at hstep with hcond
    · exact absurd hstep (List.not_mem_nil tr)
    have hstep_eq : truncStep f cs mn mx tracks k =
        keepCell f mx ((binnedTracks tracks).filter fun tr' => cellKey cs tr' = k) := by
      rw [truncStep, if_neg hcond]
    have hmemstep : tr ∈ truncStep f cs mn mx tracks k := by rw [hstep_eq]; exact hstep
    have htr_out : tr ∈ specTruncCS f cs mn mx tracks :=
      List.mem_flatMap.2 ⟨k, hk, hmemstep⟩
    have hkey_tr : cellKey cs tr = k := (mem_truncStep_key hmemstep).1
    have hcell_out : (binnedTracks (specTruncCS f cs mn mx tracks)).filter
        (fun tr' => cellKey cs tr' = k) = truncStep f cs mn mx tracks k := by
      rw [hbinned_out]
      exact filter_flatMap_eq _ hnodup hhom k hk
    refine List.mem_flatMap.2 ⟨k, ?_, ?_⟩
    · rw [show firstKeys ((binnedTracks (specTruncCS f cs mn mx tracks)).map (cellKey cs)) =
          firstKeysFrom []
            ((binnedTracks (specTruncCS f cs mn mx tracks)).map (cellKey cs)) from rfl,
        mem_firstKeysFrom]
      right
      rw [hbinned_out]
      exact List.mem_map.2 ⟨tr, htr_out, hkey_tr⟩
    · rw [truncStep, hcell_out, hstep_eq]
      rw [if_neg ?hc]
      case hc =>
        rw [length_keepCell]
        have h1 : ¬ (((binnedTracks tracks).filter
            fun tr' => cellKey cs tr' = k).length : ℤ) < mn := hcond
        have htonat : (mx.toNat : ℤ) = mx := Int.toNat_of_nonneg hmx
        push_cast
        omega
      · rw [mem_keepCell_of_le (by rw [length_keepCell]; exact min_le_left _ _)]
        exact hstep

/-- C8 (amended): for `min_per_cell ≤ max_per_cell` and non-negative
`max_per_cell`, applying the density filter a second time with identical
parameters to its own output returns the same set of tracks.  (When
`max_per_cell < min_per_cell` this fails: a surviving cell is truncated below
the minimum and discarded wholesale by the second pass; a negative
`max_per_cell` makes the Go slice expression panic.) -/
theorem density_filter_idempotent_on_subset (f : ℚ → ℚ → ℚ) (tracks : List Track)
    (gcs mn mx : ℤ) (hminmax : mn ≤ mx) (hmx : 0 ≤ mx) (tr : Track) :
    (tr ∈ FilterTracksByDensityAndSmoothness f
        (FilterTracksByDensityAndSmoothness f tracks gcs mn mx) gcs mn mx ↔
      tr ∈ FilterTracksByDensityAndSmoothness f tracks gcs mn mx) := by
  simp only [filter_eq_specTrunc, filterSpecTrunc_eq]
  exact specTruncCS_idem f (if gcs ≤ 0 then 32 else gcs) mn mx tracks hminmax hmx tr

theorem density_filter_idempotent_witness :
    (onePtTrack 0 (-1) 0 ∈ FilterTracksByDensityAndSmoothness f0
        (FilterTracksByDensityAndSmoothness f0 [onePtTrack 0 (-1) 0, onePtTrack 1 1 0] 32 2 5)
        32 2 5 ↔
      onePtTrack 0 (-1) 0 ∈
        FilterTracksByDensityAndSmoothness f0 [onePtTrack 0 (-1) 0, onePtTrack 1 1 0] 32 2 5) :=
  density_filter_idempotent_on_subset f0 [onePtTrack 0 (-1) 0, onePtTrack 1 1 0] 32 2 5
    (by norm_num) (by norm_num) (onePtTrack 0 (-1) 0)

end Newcast
